import Mathlib

/-!
Verification of the USER-SPHERHARM core (atom_vec_spherharm.cpp) against its
natural-language specification.  The file shallowly embeds the geometric and
numerical routines of the source over the real numbers: machine doubles are
modelled as elements of the real field, arrays as functions out of the
naturals, and fallible arithmetic (division whose IEEE result would not be a
real number) as Option-valued computations.  Helper routines that live in
files outside the repository snapshot (the Legendre kernel plegendre,
plegendre_recycle, plegendre_nn, the Gauss-Legendre abscissae, and the
factorial helper of the rotation code) enter as explicit function parameters
or as definitions modelled from the specification, so every theorem below
quantifies over all their possible values.
-/

open Real

namespace Spherharm

/-! ## Three-component vectors, after MathExtra (math_extra.h)

The pair-force code manipulates length-3 double arrays through the MathExtra
helpers add3, sub3, scale3, cross3, lensq3 and len3.  We embed them on a
record of three reals. -/

structure Vec3 where
  x : ℝ
  y : ℝ
  z : ℝ

namespace Vec3

/-- MathExtra add3. -/
def add (a b : Vec3) : Vec3 := ⟨a.x + b.x, a.y + b.y, a.z + b.z⟩

/-- MathExtra sub3. -/
def sub (a b : Vec3) : Vec3 := ⟨a.x - b.x, a.y - b.y, a.z - b.z⟩

/-- MathExtra scale3. -/
def smul (c : ℝ) (a : Vec3) : Vec3 := ⟨c * a.x, c * a.y, c * a.z⟩

/-- MathExtra cross3. -/
def cross (a b : Vec3) : Vec3 :=
  ⟨a.y * b.z - a.z * b.y, a.z * b.x - a.x * b.z, a.x * b.y - a.y * b.x⟩

/-- MathExtra lensq3. -/
noncomputable def lensq (a : Vec3) : ℝ := a.x * a.x + a.y * a.y + a.z * a.z

/-- MathExtra len3. -/
noncomputable def len (a : Vec3) : ℝ := Real.sqrt a.lensq

/-- The zero vector. -/
def zero : Vec3 := ⟨0, 0, 0⟩

end Vec3

/-! ## The Newton-third-law step of PairSH::compute (lines 1741-1755)

After the force iforce and torque torsum on particle i have been scaled by
the penalty magnitude, the code applies the opposite force to particle j and
a torque obtained from a reconstructed contact point:

    fn = len3(iforce)
    sub3(f[j], iforce, f[j])
    cross3(torsum, iforce, xcont)
    scale3(-1.0/(fn*fn), xcont)
    add3(xcont, x[i], xcont)
    sub3(xcont, x[j], x_testpoint)
    cross3(iforce, x_testpoint, torsum)
    add3(torque[j], torsum, torque[j])

The scale by -1/(fn*fn) divides by the squared force magnitude with no guard;
when fn = 0 the IEEE quotient is not a real number and the subsequent updates
are not representable in the real-valued model, so the embedding returns none
in that case.  Arguments: positions xi xj, the already-scaled force F and
torque tau on particle i, and particle j's current force fj and torque tj;
the result is particle j's new (force, torque) pair. -/
noncomputable def n3lStep (xi xj F tau fj tj : Vec3) : Option (Vec3 × Vec3) :=
  let fn := Real.sqrt F.lensq
  if fn = 0 then none
  else
    let fj' := fj.sub F
    let xcont := (Vec3.smul (-1 / (fn * fn)) (tau.cross F)).add xi
    let xtest := xcont.sub xj
    some (fj', tj.add (F.cross xtest))

theorem Vec3.lensq_nonneg (a : Vec3) : 0 ≤ a.lensq := by
  unfold Vec3.lensq; nlinarith [sq_nonneg a.x, sq_nonneg a.y, sq_nonneg a.z]

theorem sqrt_lensq_ne_zero {a : Vec3} (h : a.lensq ≠ 0) : Real.sqrt a.lensq ≠ 0 :=
  ne_of_gt (Real.sqrt_pos.mpr (lt_of_le_of_ne a.lensq_nonneg (Ne.symm h)))

/-- C2 (amended): in the Newton-third-law step, when the overlap force on
particle A is nonzero, particle B receives force -F_A and torque
F_A x (x_c - x_B) with contact point x_c = x_A + (F_A x tau_A)/|F_A|^2,
that is, x_c = x_A - (tau_A x F_A)/|F_A|^2: the sign of the cross-product
term is opposite to the one stated in the claim. -/
theorem n3l_force_torque (xi xj F tau fj tj : Vec3) (h : F.lensq ≠ 0) :
    n3lStep xi xj F tau fj tj =
      some (fj.sub F,
        tj.add (F.cross (((Vec3.smul (1 / F.lensq) (F.cross tau)).add xi).sub xj))) := by
  unfold n3lStep
  rw [if_neg (sqrt_lensq_ne_zero h)]
  have hs : Real.sqrt F.lensq * Real.sqrt F.lensq = F.lensq :=
    Real.mul_self_sqrt F.lensq_nonneg
  rw [hs]
  have hcross : Vec3.smul (-1 / F.lensq) (tau.cross F) = Vec3.smul (1 / F.lensq) (F.cross tau) := by
    simp only [Vec3.smul, Vec3.cross, Vec3.mk.injEq]
    refine ⟨by ring, by ring, by ring⟩
  rw [hcross]

/-- Witness for C2 (amended), at F_A = (0,0,1), tau_A = (1,0,0),
x_A = x_B = 0 and zero accumulators on B. -/
theorem n3l_force_torque_witness :
    Vec3.lensq ⟨0, 0, 1⟩ ≠ 0 ∧
    n3lStep ⟨0, 0, 0⟩ ⟨0, 0, 0⟩ ⟨0, 0, 1⟩ ⟨1, 0, 0⟩ ⟨0, 0, 0⟩ ⟨0, 0, 0⟩ =
      some (Vec3.sub ⟨0, 0, 0⟩ ⟨0, 0, 1⟩,
        Vec3.add ⟨0, 0, 0⟩ (Vec3.cross ⟨0, 0, 1⟩
          (((Vec3.smul (1 / Vec3.lensq ⟨0, 0, 1⟩)
              (Vec3.cross ⟨0, 0, 1⟩ ⟨1, 0, 0⟩)).add ⟨0, 0, 0⟩).sub ⟨0, 0, 0⟩))) := by
  have h : Vec3.lensq (⟨0, 0, 1⟩ : Vec3) ≠ 0 := by norm_num [Vec3.lensq]
  exact ⟨h, n3l_force_torque _ _ _ _ _ _ h⟩

/-- Counterexample to C2 as stated: with the contact point taken as
x_c = x_A + (tau_A x F_A)/|F_A|^2 (the claim's sign), the predicted torque on
B differs from what the code computes, already at F_A = (0,0,1),
tau_A = (1,0,0), x_A = x_B = 0. -/
theorem n3l_contact_point_claim_false :
    n3lStep ⟨0, 0, 0⟩ ⟨0, 0, 0⟩ ⟨0, 0, 1⟩ ⟨1, 0, 0⟩ ⟨0, 0, 0⟩ ⟨0, 0, 0⟩ ≠
      some (Vec3.sub ⟨0, 0, 0⟩ ⟨0, 0, 1⟩,
        Vec3.add ⟨0, 0, 0⟩ (Vec3.cross ⟨0, 0, 1⟩
          (((Vec3.smul (1 / Vec3.lensq ⟨0, 0, 1⟩)
              (Vec3.cross ⟨1, 0, 0⟩ ⟨0, 0, 1⟩)).add ⟨0, 0, 0⟩).sub ⟨0, 0, 0⟩))) := by
  have hl : Vec3.lensq (⟨0, 0, 1⟩ : Vec3) = 1 := by norm_num [Vec3.lensq]
  have hstep : n3lStep ⟨0, 0, 0⟩ ⟨0, 0, 0⟩ ⟨0, 0, 1⟩ ⟨1, 0, 0⟩ ⟨0, 0, 0⟩ ⟨0, 0, 0⟩
      = some (⟨0, 0, -1⟩, ⟨-1, 0, 0⟩) := by
    unfold n3lStep
    rw [hl, Real.sqrt_one, if_neg one_ne_zero]
    norm_num [Vec3.sub, Vec3.add, Vec3.smul, Vec3.cross]
  rw [hstep, hl]
  norm_num [Vec3.sub, Vec3.add, Vec3.smul, Vec3.cross, Prod.ext_iff, Vec3.mk.injEq]

/-! ## Stage 1 of PairSH::compute (lines 1671-1711)

For each neighbour pair the code branches on a distance r and the two
bounding radii:

    if (r < radi + radj) {
      if (r > radj) { iang = std::asin(radj / r); ... full evaluation ... }
      else { error->all(FLERR, "Error, centre within radius!"); }
    }

Outside the first branch nothing at all is executed for the pair, so the
per-pair force and torque accumulators are untouched.  The distance r,
however, is NOT the centre distance of the current pair for every
neighbour: delvec is copied from x[i] only once per atom i (line 1671,
before the neighbour loop), each neighbour iteration runs
sub3(delvec, x[j], delvec) on the accumulated vector (line 1687) and takes
r = sqrt(lensq3(delvec)) (lines 1690-1691), and when the branch is taken
delvec is additionally negated in place (line 1711).  Only the first
neighbour of each atom therefore sees r = |x_i - x_j|; later neighbours
see the length of a running combination of earlier positions.  stage1
below takes the branch input r as a parameter, and neighborDelvec models
how compute actually produces it per neighbour; the work done with the cap
angle (stages 2-6) is abstracted as the function proceed. -/

/-- Accumulated forces and torques of the two particles of a pair. -/
structure PairState where
  fi : Vec3
  fj : Vec3
  ti : Vec3
  tj : Vec3

/-- Error raised by PairSH::compute when the branch distance does not
exceed the other particle's bounding radius. -/
inductive PairErr where
  | CenterInsideOther
deriving DecidableEq

/-- The stage-1 branch of the pair evaluation, lines 1700-1708:
bounding-sphere reject, cap half-angle computation iang = arcsin(radj/r),
or the centre-inside error, as a function of the branch input r (the
length of the accumulated delvec, not in general the centre distance). -/
noncomputable def stage1 (r radi radj : ℝ) (proceed : ℝ → PairState → PairState)
    (s : PairState) : Except PairErr PairState :=
  if r < radi + radj then
    if r > radj then Except.ok (proceed (Real.arcsin (radj / r)) s)
    else Except.error PairErr.CenterInsideOther
  else Except.ok s

/-- One neighbour iteration of the delvec bookkeeping in PairSH::compute:
line 1687 subtracts x[j] from the accumulated delvec, lines 1690-1691 take
r as its length, and line 1711 negates delvec in place when the stage-1
branch r < radi + radj is taken.  Returns the delvec carried to the next
neighbour and the r used for the current pair. -/
noncomputable def neighborDelvec (radsum : ℝ) (delvec xj : Vec3) : Vec3 × ℝ :=
  let dv := delvec.sub xj
  let r := dv.len
  (if r < radsum then Vec3.smul (-1) dv else dv, r)

/-- C4: the claim is the specified behaviour, but compute violates it for
every neighbour after the first, because delvec is never reset to x[i].
Failing input: atom i at the origin with radi = 1, first neighbour at
(1,0,0) with radj = 1/4 (the contact branch runs and negates delvec to
(1,0,0)), second neighbour at (-3,0,0) with radj = 5/2.  The code then
uses r = |(1,0,0) - (-3,0,0)| = 4 for the second pair, although its centre
distance is 3; since 4 is not below radi + radj = 7/2 the pair is rejected
unchanged, while the claim (centre distance 3 < 7/2 and 3 > 5/2) requires
the full cap-angle evaluation. -/
theorem compute_distance_accumulation_bug :
    (neighborDelvec (1 + 1/4) ⟨0, 0, 0⟩ ⟨1, 0, 0⟩).1 = (⟨1, 0, 0⟩ : Vec3) ∧
    (neighborDelvec (1 + 5/2) ⟨1, 0, 0⟩ ⟨-3, 0, 0⟩).2 = 4 ∧
    Vec3.len (Vec3.sub ⟨0, 0, 0⟩ ⟨-3, 0, 0⟩) = 3 ∧
    stage1 (neighborDelvec (1 + 5/2) ⟨1, 0, 0⟩ ⟨-3, 0, 0⟩).2 1 (5/2) (fun _ t => t)
        ⟨Vec3.zero, Vec3.zero, Vec3.zero, Vec3.zero⟩ =
      Except.ok ⟨Vec3.zero, Vec3.zero, Vec3.zero, Vec3.zero⟩ ∧
    ((3:ℝ) < 1 + 5/2 ∧ (5/2:ℝ) < 3) := by
  have hsub1 : Vec3.sub ⟨0, 0, 0⟩ ⟨1, 0, 0⟩ = (⟨-1, 0, 0⟩ : Vec3) := by
    simp only [Vec3.sub, Vec3.mk.injEq]
    norm_num
  have hlen1 : Vec3.len (⟨-1, 0, 0⟩ : Vec3) = 1 := by
    simp only [Vec3.len, Vec3.lensq]
    norm_num [Real.sqrt_one]
  have hsub2 : Vec3.sub ⟨1, 0, 0⟩ ⟨-3, 0, 0⟩ = (⟨4, 0, 0⟩ : Vec3) := by
    simp only [Vec3.sub, Vec3.mk.injEq]
    norm_num
  have hlen2 : Vec3.len (⟨4, 0, 0⟩ : Vec3) = 4 := by
    simp only [Vec3.len, Vec3.lensq]
    rw [show (4:ℝ) * 4 + 0 * 0 + 0 * 0 = 4 ^ 2 by norm_num]
    exact Real.sqrt_sq (by norm_num)
  have hr2 : (neighborDelvec (1 + 5/2) ⟨1, 0, 0⟩ ⟨-3, 0, 0⟩).2 = 4 := by
    simp only [neighborDelvec]
    rw [hsub2, hlen2]
  refine ⟨?_, hr2, ?_, ?_, by norm_num, by norm_num⟩
  · simp only [neighborDelvec]
    rw [hsub1, hlen1, if_pos (by norm_num : (1:ℝ) < 1 + 1/4)]
    simp only [Vec3.smul, Vec3.mk.injEq]
    norm_num
  · have hsub3 : Vec3.sub ⟨0, 0, 0⟩ ⟨-3, 0, 0⟩ = (⟨3, 0, 0⟩ : Vec3) := by
      simp only [Vec3.sub, Vec3.mk.injEq]
      norm_num
    rw [hsub3]
    simp only [Vec3.len, Vec3.lensq]
    rw [show (3:ℝ) * 3 + 0 * 0 + 0 * 0 = 3 ^ 2 by norm_num]
    exact Real.sqrt_sq (by norm_num)
  · rw [hr2]
    unfold stage1
    rw [if_neg (by norm_num : ¬ (4:ℝ) < 1 + 5/2)]

/-- C3: the code performs the torque-on-B computation with no guard on
|F_A|; when the overlap force on A is exactly zero the scale by
-1/(fn*fn) divides by zero, so the update has no real-valued result
(modelled as none) instead of being skipped with B's torque unchanged. -/
theorem n3l_zero_force (xi xj tau fj tj : Vec3) :
    n3lStep xi xj Vec3.zero tau fj tj = none := by
  unfold n3lStep Vec3.zero
  rw [if_pos]
  norm_num [Vec3.lensq]

/-! ## The radial bisection of PairSH::calc_force_torque (lines 2133-2161)

When a quadrature ray hits particle B, the code bisects along the ray:

    upper_bound = rad_body; lower_bound = 0.0;
    rad_sample = (upper_bound + lower_bound) / 2.0;
    while (upper_bound - lower_bound > radtol) {
      ... test the point at radius rad_sample against particle B ...
      if outside (distance > radj, or check_contact fails) lower_bound = rad_sample;
      else upper_bound = rad_sample;
      rad_sample = (upper_bound + lower_bound) / 2.0;
    }

with radtol = radius_tol * radi (line 2087) and radius_tol = 1e-3
(line 1613).  Each iteration replaces one bound by the midpoint, whichever
branch runs, so the bracket is exactly halved.  The inclusion test (distance
comparison plus check_contact) is abstracted as the predicate inside of the
sampled radius.  The loop is embedded with an iteration budget: none means
the budget was exhausted with the bracket still wider than the tolerance. -/

/-- Tolerance constant of PairSH, line 1613. -/
noncomputable def radius_tol : ℝ := 1e-3

/-- Bisection bracket. -/
structure BisectState where
  lower : ℝ
  upper : ℝ

/-- One iteration of the bisection loop of calc_force_torque: test the
midpoint and move one bound to it. -/
noncomputable def bisectStep (inside : ℝ → Bool) (s : BisectState) : BisectState :=
  let rad_sample := (s.upper + s.lower) / 2
  if inside rad_sample then ⟨s.lower, rad_sample⟩ else ⟨rad_sample, s.upper⟩

/-- The bisection while-loop of calc_force_torque, with an explicit iteration
budget. -/
noncomputable def bisectLoop (inside : ℝ → Bool) (radtol : ℝ) :
    ℕ → BisectState → Option BisectState
  | 0, s => if s.upper - s.lower > radtol then none else some s
  | fuel + 1, s =>
      if s.upper - s.lower > radtol then
        bisectLoop inside radtol fuel (bisectStep inside s)
      else some s

theorem bisectStep_gap (inside : ℝ → Bool) (s : BisectState) :
    (bisectStep inside s).upper - (bisectStep inside s).lower = (s.upper - s.lower) / 2 := by
  unfold bisectStep
  by_cases h : inside ((s.upper + s.lower) / 2)
  · rw [if_pos h]; ring
  · rw [if_neg h]; ring

theorem bisectLoop_total (inside : ℝ → Bool) (radtol : ℝ) :
    ∀ (fuel : ℕ) (s : BisectState), s.upper - s.lower ≤ 2 ^ fuel * radtol →
      ∃ s', bisectLoop inside radtol fuel s = some s' ∧ s'.upper - s'.lower ≤ radtol := by
  intro fuel
  induction fuel with
  | zero =>
      intro s h
      rw [pow_zero, one_mul] at h
      exact ⟨s, by unfold bisectLoop; rw [if_neg (not_lt.mpr h)], h⟩
  | succ f ih =>
      intro s h
      by_cases hc : s.upper - s.lower > radtol
      · have hgap : (bisectStep inside s).upper - (bisectStep inside s).lower
            ≤ 2 ^ f * radtol := by
          rw [bisectStep_gap]
          have : (2:ℝ) ^ (f + 1) * radtol = 2 * (2 ^ f * radtol) := by ring
          linarith [h.trans_eq this]
        obtain ⟨s', hs', hgap'⟩ := ih (bisectStep inside s) hgap
        exact ⟨s', by unfold bisectLoop; rw [if_pos hc]; exact hs', hgap'⟩
      · exact ⟨s, by unfold bisectLoop; rw [if_neg hc], not_lt.mp hc⟩

/-- C9: the bracket of the radial bisection starts at rad_body, is exactly
halved by every iteration whatever the inclusion tests return, and the loop
stops once rad_body fits within 2^t times the tolerance; in particular with
r_max(A) = 1 and radius_tol = 1e-3 eleven iterations always suffice. -/
theorem bisection_terminates (inside : ℝ → Bool) :
    (∀ s : BisectState,
        (bisectStep inside s).upper - (bisectStep inside s).lower
          = (s.upper - s.lower) / 2) ∧
    (∀ (radtol rad_body : ℝ) (fuel : ℕ), rad_body ≤ 2 ^ fuel * radtol →
        ∃ s, bisectLoop inside radtol fuel ⟨0, rad_body⟩ = some s ∧
          s.upper - s.lower ≤ radtol) ∧
    (∀ rad_body : ℝ, rad_body ≤ 1 →
        ∃ s, bisectLoop inside (radius_tol * 1) 11 ⟨0, rad_body⟩ = some s ∧
          s.upper - s.lower ≤ radius_tol * 1) := by
  refine ⟨bisectStep_gap inside, ?_, ?_⟩
  · intro radtol rad_body fuel h
    exact bisectLoop_total inside radtol fuel ⟨0, rad_body⟩ (by simpa using h)
  · intro rad_body h
    refine bisectLoop_total inside (radius_tol * 1) 11 ⟨0, rad_body⟩ ?_
    have : (2:ℝ) ^ 11 * (radius_tol * 1) = 2.048 := by norm_num [radius_tol]
    rw [this]
    simp only
    linarith

/-- Witness for C9, at rad_body = 1 and constant-false inclusion tests. -/
theorem bisection_terminates_witness :
    (1:ℝ) ≤ 1 ∧
    ∃ s, bisectLoop (fun _ => false) (radius_tol * 1) 11 ⟨0, 1⟩ = some s ∧
      s.upper - s.lower ≤ radius_tol * 1 :=
  ⟨le_refl 1, (bisection_terminates (fun _ => false)).2.2 1 (le_refl 1)⟩

/-! ## The cap-refinement index, PairSH::refine_cap_angle (lines 1996-2060),
the clamp in PairSH::compute (line 1722), and the abscissa table
(PairSH::get_quadrature_values, lines 1981-1994, called with num_pole_quad
at line 1924 so the abscissa array has exactly num_pole_quad entries).

refine_cap_angle scans rings kk = num_pole_quad-1 down to 0; within each
ring it scans ll = 1 .. 2*(num_pole_quad-1)+1 trapezoid points, and on the
first contact it sets kk_count = kk+1 and returns 1.  The geometric contact
test for a ring point is abstracted as the predicate contact kk ll (ll
renumbered from 0).  compute then runs

    if (kk_count > num_pole_quad) kk_count = num_pole_quad;

and calc_force_torque reads abscissa[kk_count] (line 2090). -/

/-- Pole-quadrature order of PairSH, line 1612. -/
def num_pole_quad : ℕ := 30

/-- Whether the ll sweep of one ring of refine_cap_angle finds a contact:
the inner loop runs over nTrap + 1 azimuth values. -/
def ringHasContact (contact : ℕ → ℕ → Bool) (nTrap kk : ℕ) : Bool :=
  (List.range (nTrap + 1)).any (contact kk)

/-- The descending kk loop of refine_cap_angle: the argument is the number
of rings still to scan, so ring kk is visited when the argument is kk+1;
returns the kk_count the routine stores, or none when no ring has contact
(the routine returns 0 and kk_count keeps its sentinel). -/
def rcaLoop (contact : ℕ → ℕ → Bool) (nTrap : ℕ) : ℕ → Option ℕ
  | 0 => none
  | kk + 1 => if ringHasContact contact nTrap kk then some (kk + 1) else rcaLoop contact nTrap kk

/-- PairSH::refine_cap_angle, reduced to its kk_count computation: scan all
Qp rings, nTrap = 2*(Qp-1) azimuth subdivisions as at line 2013. -/
def refine_cap_angle (contact : ℕ → ℕ → Bool) (Qp : ℕ) : Option ℕ :=
  rcaLoop contact (2 * (Qp - 1)) Qp

/-- The clamp applied to kk_count by PairSH::compute at line 1722. -/
def kkClamp (Qp kk : ℕ) : ℕ := if kk > Qp then Qp else kk

/-- C10: when the first contact is found on the outermost ring
kk = num_pole_quad - 1, refine_cap_angle returns kk_count = num_pole_quad,
the clamp in compute leaves that value unchanged, and calc_force_torque then
indexes the abscissa array at num_pole_quad, which is not a valid index of
an array of num_pole_quad elements. -/
theorem refine_cap_overrun (contact : ℕ → ℕ → Bool) (Qp : ℕ) (h1 : 1 ≤ Qp)
    (h2 : ringHasContact contact (2 * (Qp - 1)) (Qp - 1) = true) :
    ∃ kk_count, refine_cap_angle contact Qp = some kk_count ∧
      kkClamp Qp kk_count = Qp ∧ ¬ kkClamp Qp kk_count < Qp := by
  obtain ⟨q, rfl⟩ : ∃ q, Qp = q + 1 := ⟨Qp - 1, (Nat.succ_pred_eq_of_pos h1).symm⟩
  have hq : q + 1 - 1 = q := rfl
  rw [hq] at h2
  refine ⟨q + 1, ?_, ?_, ?_⟩
  · unfold refine_cap_angle rcaLoop
    rw [hq, if_pos h2]
  · unfold kkClamp
    rw [if_neg (lt_irrefl (q + 1))]
  · unfold kkClamp
    rw [if_neg (lt_irrefl (q + 1))]
    exact lt_irrefl (q + 1)

/-- Witness for C10 at the source's num_pole_quad = 30 with an
everywhere-true contact predicate. -/
theorem refine_cap_overrun_witness :
    1 ≤ num_pole_quad ∧
    ringHasContact (fun _ _ => true) (2 * (num_pole_quad - 1)) (num_pole_quad - 1) = true ∧
    ∃ kk_count, refine_cap_angle (fun _ _ => true) num_pole_quad = some kk_count ∧
      kkClamp num_pole_quad kk_count = num_pole_quad ∧
      ¬ kkClamp num_pole_quad kk_count < num_pole_quad := by
  refine ⟨by norm_num [num_pole_quad], by decide, ?_⟩
  exact refine_cap_overrun (fun _ _ => true) num_pole_quad (by norm_num [num_pole_quad])
    (by decide)

/-! ## The quadrature grid, AtomVecSpherharm::get_quadrature_values
(lines 416-451)

The Gauss-Legendre abscissae live in the math_spherharm helper (not under
src/), so they enter as the parameter absc.  The grid loop, lines 431-438,
runs i and j from 0 to Q-1 with a running counter count = i*Q + j and sets

    angles[0][count] = 0.5 * MY_PI * (abscissa[i] + 1.0);
    angles[1][count] = MY_PI * (abscissa[j] + 1.0);
-/

/-- Polar angle of grid point number k, line 434. -/
noncomputable def anglesTheta (absc : ℕ → ℝ) (Q k : ℕ) : ℝ :=
  0.5 * π * (absc (k / Q) + 1)

/-- Azimuthal angle of grid point number k, line 435. -/
noncomputable def anglesPhi (absc : ℕ → ℝ) (Q k : ℕ) : ℝ :=
  π * (absc (k % Q) + 1)

/-- C8: the grid point with indices (i, j) gets polar angle
(pi/2)(x_i + 1) and azimuth pi(x_j + 1); over abscissae in [-1, 1] the
polar angle spans [0, pi] and the azimuth spans [0, 2 pi]. -/
theorem quadrature_grid_angles (absc : ℕ → ℝ) (Q i j : ℕ) (_hi : i < Q) (hj : j < Q)
    (hbi : -1 ≤ absc i ∧ absc i ≤ 1) (hbj : -1 ≤ absc j ∧ absc j ≤ 1) :
    anglesTheta absc Q (i * Q + j) = π / 2 * (absc i + 1) ∧
    anglesPhi absc Q (i * Q + j) = π * (absc j + 1) ∧
    0 ≤ anglesTheta absc Q (i * Q + j) ∧ anglesTheta absc Q (i * Q + j) ≤ π ∧
    0 ≤ anglesPhi absc Q (i * Q + j) ∧ anglesPhi absc Q (i * Q + j) ≤ 2 * π := by
  have hQ : 0 < Q := Nat.pos_of_ne_zero (by omega)
  have hdiv : (i * Q + j) / Q = i := by
    rw [Nat.mul_comm i Q, Nat.mul_add_div hQ, Nat.div_eq_of_lt hj, Nat.add_zero]
  have hmod : (i * Q + j) % Q = j := by
    rw [Nat.mul_comm i Q, Nat.mul_add_mod, Nat.mod_eq_of_lt hj]
  have hth : anglesTheta absc Q (i * Q + j) = π / 2 * (absc i + 1) := by
    unfold anglesTheta; rw [hdiv]; ring
  have hph : anglesPhi absc Q (i * Q + j) = π * (absc j + 1) := by
    unfold anglesPhi; rw [hmod]
  refine ⟨hth, hph, ?_, ?_, ?_, ?_⟩
  · rw [hth]; nlinarith [Real.pi_pos, hbi.1]
  · rw [hth]; nlinarith [Real.pi_pos, hbi.2]
  · rw [hph]; nlinarith [Real.pi_pos, hbj.1]
  · rw [hph]; nlinarith [Real.pi_pos, hbj.2]

/-- Witness for C8: Q = 2, constant-zero abscissae, grid indices (1, 0). -/
theorem quadrature_grid_angles_witness :
    anglesTheta (fun _ => 0) 2 (1 * 2 + 0) = π / 2 * (0 + 1) ∧
    anglesPhi (fun _ => 0) 2 (1 * 2 + 0) = π * (0 + 1) ∧
    0 ≤ anglesTheta (fun _ => 0) 2 (1 * 2 + 0) ∧
    anglesTheta (fun _ => 0) 2 (1 * 2 + 0) ≤ π ∧
    0 ≤ anglesPhi (fun _ => 0) 2 (1 * 2 + 0) ∧
    anglesPhi (fun _ => 0) 2 (1 * 2 + 0) ≤ 2 * π :=
  quadrature_grid_angles (fun _ => 0) 2 1 0 (by norm_num) (by norm_num)
    (by norm_num) (by norm_num)

/-! ## Expansion factors, AtomVecSpherharm::calcexpansionfactors_gauss
(lines 566-666)

For each degree n < maxshexpan the routine records the grid maximum of the
ratio r_{n+1}/r_n and clamps it below by 1 (lines 628-639); those per-degree
maxima enter here as the parameter raw.  The final table is accumulated
downward, lines 642-648:

    factor = expfactors[maxshexpan];              // = 1.0
    for (int n = maxshexpan - 1; n >= 0; n--) {
      factor *= expfactors[n] * safety_factor;
      expfacts_byshape[sht][n] = factor;
    }
    expfacts_byshape[sht][maxshexpan] = 1.0;
-/

/-- Safety factor of calcexpansionfactors_gauss, line 569. -/
def safety_factor : ℝ := 1.00

/-- The clamp of lines 636-638: per-degree factors below 1 are raised to 1. -/
noncomputable def clampRatio (v : ℝ) : ℝ := if v < 1 then 1 else v

/-- The stored expansion-factor table: entry n is the running product of the
clamped per-degree factors times the safety factor, taken from degree n up
to maxshexpan - 1, and entry maxshexpan is exactly 1. -/
noncomputable def expfacts_byshape (raw : ℕ → ℝ) (nmax n : ℕ) : ℝ :=
  if _h : n < nmax then
    expfacts_byshape raw nmax (n + 1) * (clampRatio (raw n) * safety_factor)
  else 1
termination_by nmax - n
decreasing_by omega

theorem clampRatio_ge_one (v : ℝ) : 1 ≤ clampRatio v := by
  unfold clampRatio
  by_cases h : v < 1
  · rw [if_pos h]
  · rw [if_neg h]; exact not_lt.mp h

theorem expfacts_ge_one (raw : ℕ → ℝ) (nmax : ℕ) :
    ∀ n, 1 ≤ expfacts_byshape raw nmax n := by
  have H : ∀ d n, nmax - n ≤ d → 1 ≤ expfacts_byshape raw nmax n := by
    intro d
    induction d with
    | zero =>
        intro n _
        rw [expfacts_byshape, dif_neg (by omega)]
    | succ d ih =>
        intro n h
        by_cases hn : n < nmax
        · rw [expfacts_byshape, dif_pos hn]
          have h1 := ih (n + 1) (by omega)
          have h2 : 1 ≤ clampRatio (raw n) * safety_factor := by
            have := clampRatio_ge_one (raw n)
            unfold safety_factor
            nlinarith
          nlinarith
        · rw [expfacts_byshape, dif_neg hn]
  exact fun n => H (nmax - n) n le_rfl

theorem expfacts_step_le (raw : ℕ → ℝ) (nmax m : ℕ) :
    expfacts_byshape raw nmax (m + 1) ≤ expfacts_byshape raw nmax m := by
  by_cases hm : m < nmax
  · conv_rhs => rw [expfacts_byshape]
    rw [dif_pos hm]
    have h1 := expfacts_ge_one raw nmax (m + 1)
    have h2 : 1 ≤ clampRatio (raw m) * safety_factor := by
      have := clampRatio_ge_one (raw m)
      unfold safety_factor
      nlinarith
    nlinarith
  · conv_lhs => rw [expfacts_byshape]
    rw [dif_neg (by omega)]
    exact expfacts_ge_one raw nmax m

/-- C5: the stored expansion-factor table is monotonically non-increasing in
the degree and its last entry is exactly 1, for every shape (that is, for
every family of per-degree grid ratio maxima). -/
theorem expansion_factors_monotone (raw : ℕ → ℝ) (nmax : ℕ) :
    (∀ n m, n ≤ m → expfacts_byshape raw nmax m ≤ expfacts_byshape raw nmax n) ∧
    expfacts_byshape raw nmax nmax = 1 := by
  constructor
  · intro n m hnm
    induction m, hnm using Nat.le_induction with
    | base => exact le_refl _
    | succ m hnm ih => exact (expfacts_step_le raw nmax m).trans ih
  · rw [expfacts_byshape, dif_neg (lt_irrefl nmax)]

/-- Witness for C5 at raw ratios constantly 2 and maxshexpan = 3. -/
theorem expansion_factors_monotone_witness :
    expfacts_byshape (fun _ => 2) 3 3 ≤ expfacts_byshape (fun _ => 2) 3 0 ∧
    expfacts_byshape (fun _ => 2) 3 3 = 1 :=
  ⟨(expansion_factors_monotone (fun _ => 2) 3).1 0 3 (by norm_num),
   (expansion_factors_monotone (fun _ => 2) 3).2⟩

/-! ## The shape oracle loops: AtomVecSpherharm::check_contact (lines
680-763) and AtomVecSpherharm::get_shape_radius (lines 769-833)

Both routines accumulate the surface radius degree by degree with two
rolling Legendre buffers Pnm_m1 and Pnm_m2 and the corner value Pnm_nn;
their loop bodies are textually identical (degrees 1 and 2 seeded with
plegendre, degree n from 3 on using plegendre_recycle for m up to n-2, a
closed form for m = n-1 and plegendre_nn for m = n).  The Legendre kernel
lives in math_spherharm (not under src/), so plegendre, plegendre_recycle
and plegendre_nn enter as function parameters pleg, plegRec and plegNN.
Coefficient m of degree n sits at loc(n, m) = n(n+1) + 2(n-m), which is the
running index both loops maintain. -/

/-- Rolling state of the shape-radius accumulation: the radius so far and
the Legendre buffers of the two previous degrees. -/
structure SHState where
  radVal : ℝ
  pm1 : ℕ → ℝ
  pm2 : ℕ → ℝ
  pnn : ℝ

/-- Coefficient index of the degree-n order-m (real part) entry. -/
def locnm (n m : ℕ) : ℕ := n * (n + 1) + 2 * (n - m)

/-- Body of the inner m-loop of check_contact for 1 <= m <= n-2 (lines
726-733): recycle the Legendre value, shift the buffers, accumulate the
order-m contribution. -/
noncomputable def check_contact_mid (plegRec : ℕ → ℕ → ℝ → ℝ → ℝ → ℝ)
    (coeffs : ℕ → ℝ) (φ x : ℝ) (n : ℕ) (s : SHState) (m : ℕ) : SHState :=
  let P := plegRec n m x (s.pm1 m) (s.pm2 m)
  { radVal := s.radVal + (coeffs (locnm n m) * Real.cos ((m : ℝ) * φ)
      - coeffs (locnm n m + 1) * Real.sin ((m : ℝ) * φ)) * 2 * P
    pm1 := Function.update s.pm1 m P
    pm2 := Function.update s.pm2 m (s.pm1 m)
    pnn := s.pnn }

/-- One full degree of the check_contact accumulation (the body of the
while loop, lines 697-747). -/
noncomputable def check_contact_step (pleg : ℕ → ℕ → ℝ → ℝ)
    (plegRec : ℕ → ℕ → ℝ → ℝ → ℝ → ℝ) (plegNN : ℕ → ℝ → ℝ → ℝ)
    (coeffs : ℕ → ℝ) (φ x : ℝ) (n : ℕ) (s : SHState) : SHState :=
  if n = 1 then
    let P10 := pleg 1 0 x
    let P11 := pleg 1 1 x
    { radVal := s.radVal + coeffs 4 * P10
        + (coeffs 2 * Real.cos (1 * φ) - coeffs 3 * Real.sin (1 * φ)) * 2 * P11
      pm1 := s.pm1
      pm2 := Function.update (Function.update s.pm2 0 P10) 1 P11
      pnn := s.pnn }
  else if n = 2 then
    let P20 := pleg 2 0 x
    let P22 := pleg 2 2 x
    let P21 := pleg 2 1 x
    { radVal := s.radVal + coeffs 10 * P20
        + (coeffs 6 * Real.cos (2 * φ) - coeffs 7 * Real.sin (2 * φ)) * 2 * P22
        + (coeffs 8 * Real.cos (1 * φ) - coeffs 9 * Real.sin (1 * φ)) * 2 * P21
      pm1 := Function.update (Function.update (Function.update s.pm1 0 P20) 2 P22) 1 P21
      pm2 := s.pm2
      pnn := P22 }
  else
    let P0 := plegRec n 0 x (s.pm1 0) (s.pm2 0)
    let s0 : SHState :=
      { radVal := s.radVal + coeffs (locnm n 0) * P0
        pm1 := Function.update s.pm1 0 P0
        pm2 := Function.update s.pm2 0 (s.pm1 0)
        pnn := s.pnn }
    let s1 := (List.range' 1 (n - 2)).foldl (check_contact_mid plegRec coeffs φ x n) s0
    let Pn1 := x * Real.sqrt (2 * ((n : ℝ) - 1) + 3) * s1.pnn
    let s2 : SHState :=
      { radVal := s1.radVal + (coeffs (locnm n (n - 1)) * Real.cos (((n : ℝ) - 1) * φ)
          - coeffs (locnm n (n - 1) + 1) * Real.sin (((n : ℝ) - 1) * φ)) * 2 * Pn1
        pm1 := Function.update s1.pm1 (n - 1) Pn1
        pm2 := Function.update s1.pm2 (n - 1) (s1.pm1 (n - 1))
        pnn := s1.pnn }
    let Pnn := plegNN n x s2.pnn
    { radVal := s2.radVal + (coeffs (locnm n n) * Real.cos ((n : ℝ) * φ)
        - coeffs (locnm n n + 1) * Real.sin ((n : ℝ) * φ)) * 2 * Pnn
      pm1 := Function.update s2.pm1 n Pnn
      pm2 := s2.pm2
      pnn := Pnn }

/-- State on entry of the check_contact loop (lines 682, 693-695): the
degree-0 radius and zeroed buffers. -/
noncomputable def check_contact_init (coeffs : ℕ → ℝ) : SHState :=
  { radVal := coeffs 0 * Real.sqrt (1 / (4 * π))
    pm1 := fun _ => 0
    pm2 := fun _ => 0
    pnn := 0 }

/-- Iteration of a per-degree accumulation step: state after degrees
1 .. n have been processed. -/
noncomputable def stepIter (step : ℕ → SHState → SHState) (s0 : SHState) : ℕ → SHState
  | 0 => s0
  | n + 1 => step (n + 1) (stepIter step s0 n)

/-- The while loop of check_contact (lines 697-761): n is the degree about
to be processed and r the number of degrees still to process (so r = 0
corresponds to the loop condition n <= maxshexpan failing, in which case
the routine falls through to the final return 0).  After each degree the
expanded radius is tested for early exit; when the degree just processed
was the last, the routine answers and stores finalrad. -/
noncomputable def ccLoop (expfacts : ℕ → ℝ) (d : ℝ) (step : ℕ → SHState → SHState) :
    ℕ → ℕ → SHState → Option ℝ
  | _, 0, _ => none
  | n, r + 1, s =>
      let s' := step n s
      let sh_dist := expfacts n * s'.radVal
      if d > sh_dist then none
      else if r = 0 then (if d ≤ sh_dist then some s'.radVal else none)
      else ccLoop expfacts d step (n + 1) r s'

/-- AtomVecSpherharm::check_contact (lines 680-763): some finalrad when the
routine returns 1, none when it returns 0. -/
noncomputable def check_contact (pleg : ℕ → ℕ → ℝ → ℝ)
    (plegRec : ℕ → ℕ → ℝ → ℝ → ℝ → ℝ) (plegNN : ℕ → ℝ → ℝ → ℝ)
    (coeffs expfacts : ℕ → ℝ) (nmax : ℕ) (φ θ d : ℝ) : Option ℝ :=
  let rad_val := coeffs 0 * Real.sqrt (1 / (4 * π))
  let sh_dist := expfacts 0 * rad_val
  if d > sh_dist then none
  else
    ccLoop expfacts d (check_contact_step pleg plegRec plegNN coeffs φ (Real.cos θ))
      1 nmax (check_contact_init coeffs)

/-- Partial radius through degree n, as accumulated by the check_contact
recurrences (radVal of the state after degrees 1 .. n). -/
noncomputable def rpartial (pleg : ℕ → ℕ → ℝ → ℝ)
    (plegRec : ℕ → ℕ → ℝ → ℝ → ℝ → ℝ) (plegNN : ℕ → ℝ → ℝ → ℝ)
    (coeffs : ℕ → ℝ) (φ x : ℝ) (n : ℕ) : ℝ :=
  (stepIter (check_contact_step pleg plegRec plegNN coeffs φ x)
    (check_contact_init coeffs) n).radVal

/-- Body of the inner m-loop of get_shape_radius for 1 <= m <= n-2 (lines
809-816). -/
noncomputable def get_shape_radius_mid (plegRec : ℕ → ℕ → ℝ → ℝ → ℝ → ℝ)
    (coeffs : ℕ → ℝ) (φ x : ℝ) (n : ℕ) (s : SHState) (m : ℕ) : SHState :=
  let P := plegRec n m x (s.pm1 m) (s.pm2 m)
  { radVal := s.radVal + (coeffs (locnm n m) * Real.cos ((m : ℝ) * φ)
      - coeffs (locnm n m + 1) * Real.sin ((m : ℝ) * φ)) * 2 * P
    pm1 := Function.update s.pm1 m P
    pm2 := Function.update s.pm2 m (s.pm1 m)
    pnn := s.pnn }

/-- One full degree of the get_shape_radius accumulation (the body of the
for loop, lines 780-831). -/
noncomputable def get_shape_radius_step (pleg : ℕ → ℕ → ℝ → ℝ)
    (plegRec : ℕ → ℕ → ℝ → ℝ → ℝ → ℝ) (plegNN : ℕ → ℝ → ℝ → ℝ)
    (coeffs : ℕ → ℝ) (φ x : ℝ) (n : ℕ) (s : SHState) : SHState :=
  if n = 1 then
    let P10 := pleg 1 0 x
    let P11 := pleg 1 1 x
    { radVal := s.radVal + coeffs 4 * P10
        + (coeffs 2 * Real.cos (1 * φ) - coeffs 3 * Real.sin (1 * φ)) * 2 * P11
      pm1 := s.pm1
      pm2 := Function.update (Function.update s.pm2 0 P10) 1 P11
      pnn := s.pnn }
  else if n = 2 then
    let P20 := pleg 2 0 x
    let P22 := pleg 2 2 x
    let P21 := pleg 2 1 x
    { radVal := s.radVal + coeffs 10 * P20
        + (coeffs 6 * Real.cos (2 * φ) - coeffs 7 * Real.sin (2 * φ)) * 2 * P22
        + (coeffs 8 * Real.cos (1 * φ) - coeffs 9 * Real.sin (1 * φ)) * 2 * P21
      pm1 := Function.update (Function.update (Function.update s.pm1 0 P20) 2 P22) 1 P21
      pm2 := s.pm2
      pnn := P22 }
  else
    let P0 := plegRec n 0 x (s.pm1 0) (s.pm2 0)
    let s0 : SHState :=
      { radVal := s.radVal + coeffs (locnm n 0) * P0
        pm1 := Function.update s.pm1 0 P0
        pm2 := Function.update s.pm2 0 (s.pm1 0)
        pnn := s.pnn }
    let s1 := (List.range' 1 (n - 2)).foldl (get_shape_radius_mid plegRec coeffs φ x n) s0
    let Pn1 := x * Real.sqrt (2 * ((n : ℝ) - 1) + 3) * s1.pnn
    let s2 : SHState :=
      { radVal := s1.radVal + (coeffs (locnm n (n - 1)) * Real.cos (((n : ℝ) - 1) * φ)
          - coeffs (locnm n (n - 1) + 1) * Real.sin (((n : ℝ) - 1) * φ)) * 2 * Pn1
        pm1 := Function.update s1.pm1 (n - 1) Pn1
        pm2 := Function.update s1.pm2 (n - 1) (s1.pm1 (n - 1))
        pnn := s1.pnn }
    let Pnn := plegNN n x s2.pnn
    { radVal := s2.radVal + (coeffs (locnm n n) * Real.cos ((n : ℝ) * φ)
        - coeffs (locnm n n + 1) * Real.sin ((n : ℝ) * φ)) * 2 * Pnn
      pm1 := Function.update s2.pm1 n Pnn
      pm2 := s2.pm2
      pnn := Pnn }

/-- State on entry of the get_shape_radius loop (lines 771, 777-778). -/
noncomputable def get_shape_radius_init (coeffs : ℕ → ℝ) : SHState :=
  { radVal := coeffs 0 * Real.sqrt (1 / (4 * π))
    pm1 := fun _ => 0
    pm2 := fun _ => 0
    pnn := 0 }

/-- AtomVecSpherharm::get_shape_radius (lines 769-833): the full radius at
the maximum degree of the expansion. -/
noncomputable def get_shape_radius (pleg : ℕ → ℕ → ℝ → ℝ)
    (plegRec : ℕ → ℕ → ℝ → ℝ → ℝ → ℝ) (plegNN : ℕ → ℝ → ℝ → ℝ)
    (coeffs : ℕ → ℝ) (nmax : ℕ) (θ φ : ℝ) : ℝ :=
  (stepIter (get_shape_radius_step pleg plegRec plegNN coeffs φ (Real.cos θ))
    (get_shape_radius_init coeffs) nmax).radVal

theorem ccLoop_zero (expfacts : ℕ → ℝ) (d : ℝ) (step : ℕ → SHState → SHState)
    (n : ℕ) (s : SHState) : ccLoop expfacts d step n 0 s = none := rfl

theorem ccLoop_succ (expfacts : ℕ → ℝ) (d : ℝ) (step : ℕ → SHState → SHState)
    (n r : ℕ) (s : SHState) :
    ccLoop expfacts d step n (r + 1) s =
      if d > expfacts n * (step n s).radVal then none
      else if r = 0 then
        (if d ≤ expfacts n * (step n s).radVal then some (step n s).radVal else none)
      else ccLoop expfacts d step (n + 1) r (step n s) := rfl

theorem ccLoop_some_iff (expfacts : ℕ → ℝ) (d : ℝ) (step : ℕ → SHState → SHState)
    (s0 : SHState) (nmax : ℕ) :
    ∀ r n v, n + 1 + (r + 1) = nmax + 1 →
      (ccLoop expfacts d step (n + 1) (r + 1) (stepIter step s0 n) = some v ↔
        (∀ k, n + 1 ≤ k → k ≤ nmax → d ≤ expfacts k * (stepIter step s0 k).radVal) ∧
        v = (stepIter step s0 nmax).radVal) := by
  intro r
  induction r with
  | zero =>
      intro n v hn
      have hnm : nmax = n + 1 := by omega
      subst hnm
      have hstep : step (n + 1) (stepIter step s0 n) = stepIter step s0 (n + 1) := rfl
      rw [ccLoop_succ, hstep]
      by_cases hgt : d > expfacts (n + 1) * (stepIter step s0 (n + 1)).radVal
      · rw [if_pos hgt]
        constructor
        · intro h; cases h
        · rintro ⟨hall, -⟩
          exact absurd (hall (n + 1) le_rfl le_rfl) (not_le.mpr hgt)
      · rw [if_neg hgt, if_pos rfl, if_pos (not_lt.mp hgt)]
        constructor
        · intro h
          refine ⟨?_, (Option.some.inj h).symm⟩
          intro k hk1 hk2
          have hk : k = n + 1 := by omega
          subst hk
          exact not_lt.mp hgt
        · rintro ⟨-, rfl⟩; rfl
  | succ r ih =>
      intro n v hn
      have hstep : step (n + 1) (stepIter step s0 n) = stepIter step s0 (n + 1) := rfl
      rw [ccLoop_succ, hstep]
      by_cases hgt : d > expfacts (n + 1) * (stepIter step s0 (n + 1)).radVal
      · rw [if_pos hgt]
        constructor
        · intro h; cases h
        · rintro ⟨hall, -⟩
          exact absurd (hall (n + 1) le_rfl (by omega)) (not_le.mpr hgt)
      · rw [if_neg hgt, if_neg (Nat.succ_ne_zero r)]
        rw [ih (n + 1) v (by omega)]
        constructor
        · rintro ⟨hall, hv⟩
          refine ⟨?_, hv⟩
          intro k hk1 hk2
          by_cases hk : k = n + 1
          · subst hk; exact not_lt.mp hgt
          · exact hall k (by omega) hk2
        · rintro ⟨hall, hv⟩
          exact ⟨fun k hk1 hk2 => hall k (by omega) hk2, hv⟩

/-- C1: check_contact accumulates the partial radius degree by degree and
returns 0 exactly when some degree n up to n_max has d above the expanded
partial radius expfacts[n] * r_n; with expfacts[n_max] = 1 it returns 1
exactly when no early exit fires at degrees below n_max and d <= r_n_max,
and it then stores finalrad = r_n_max.  Quantified over every coefficient
table, every expansion-factor table with last entry 1, every Legendre
kernel, every direction and every distance. -/
theorem check_contact_spec (pleg : ℕ → ℕ → ℝ → ℝ)
    (plegRec : ℕ → ℕ → ℝ → ℝ → ℝ → ℝ) (plegNN : ℕ → ℝ → ℝ → ℝ)
    (coeffs expfacts : ℕ → ℝ) (nmax : ℕ) (φ θ d v : ℝ)
    (h1 : 1 ≤ nmax) (hexp : expfacts nmax = 1) :
    check_contact pleg plegRec plegNN coeffs expfacts nmax φ θ d = some v ↔
      ((∀ n, n < nmax →
          d ≤ expfacts n * rpartial pleg plegRec plegNN coeffs φ (Real.cos θ) n) ∧
        d ≤ rpartial pleg plegRec plegNN coeffs φ (Real.cos θ) nmax ∧
        v = rpartial pleg plegRec plegNN coeffs φ (Real.cos θ) nmax) := by
  obtain ⟨m, rfl⟩ : ∃ m, nmax = m + 1 := ⟨nmax - 1, by omega⟩
  simp only [check_contact, rpartial]
  set step := check_contact_step pleg plegRec plegNN coeffs φ (Real.cos θ) with hstepdef
  by_cases hgt : d > expfacts 0 * (coeffs 0 * Real.sqrt (1 / (4 * π)))
  · rw [if_pos hgt]
    constructor
    · intro h; cases h
    · rintro ⟨hall, -, -⟩
      exact absurd (hall 0 (by omega)) (not_le.mpr hgt)
  · rw [if_neg hgt]
    have hd0 : d ≤ expfacts 0 * (stepIter step (check_contact_init coeffs) 0).radVal :=
      not_lt.mp hgt
    have key := ccLoop_some_iff expfacts d step (check_contact_init coeffs) (m + 1) m 0 v
      (by omega)
    simp only [stepIter, Nat.zero_add] at key
    rw [key]
    constructor
    · rintro ⟨hall, hv⟩
      refine ⟨?_, ?_, hv⟩
      · intro n hn
        rcases Nat.eq_zero_or_pos n with hz | hp
        · subst hz; exact hd0
        · exact hall n hp (by omega)
      · have := hall (m + 1) (by omega) le_rfl
        rwa [hexp, one_mul] at this
    · rintro ⟨hlt, hlast, hv⟩
      refine ⟨?_, hv⟩
      intro k hk1 hk2
      by_cases hk : k = m + 1
      · subst hk; rw [hexp, one_mul]; exact hlast
      · exact hlt k (by omega)

/-- Witness for C1: the all-zero coefficient table, unit expansion factors,
the zero Legendre kernel, n_max = 1 and d = 0. -/
theorem check_contact_spec_witness :
    check_contact (fun _ _ _ => 0) (fun _ _ _ _ _ => 0) (fun _ _ _ => 0)
        (fun _ => 0) (fun _ => 1) 1 0 0 0 = some 0 ↔
      ((∀ n, n < 1 → (0:ℝ) ≤ (fun _ => (1:ℝ)) n *
          rpartial (fun _ _ _ => 0) (fun _ _ _ _ _ => 0) (fun _ _ _ => 0)
            (fun _ => 0) 0 (Real.cos 0) n) ∧
        (0:ℝ) ≤ rpartial (fun _ _ _ => 0) (fun _ _ _ _ _ => 0) (fun _ _ _ => 0)
          (fun _ => 0) 0 (Real.cos 0) 1 ∧
        (0:ℝ) = rpartial (fun _ _ _ => 0) (fun _ _ _ _ _ => 0) (fun _ _ _ => 0)
          (fun _ => 0) 0 (Real.cos 0) 1) :=
  check_contact_spec (fun _ _ _ => 0) (fun _ _ _ _ _ => 0) (fun _ _ _ => 0)
    (fun _ => 0) (fun _ => 1) 1 0 0 0 0 (by norm_num) rfl

/-- C6: whenever check_contact returns 1, the radius it stores in finalrad
(accumulated by the rolling-buffer recursion) equals the value of
get_shape_radius at the same shape and direction: the incremental recursion
of check_contact and the full loop of get_shape_radius compute the same
sum.  Quantified over every Legendre kernel, coefficient table,
expansion-factor table, direction and distance. -/
theorem check_contact_radius_agree (pleg : ℕ → ℕ → ℝ → ℝ)
    (plegRec : ℕ → ℕ → ℝ → ℝ → ℝ → ℝ) (plegNN : ℕ → ℝ → ℝ → ℝ)
    (coeffs expfacts : ℕ → ℝ) (nmax : ℕ) (φ θ d v : ℝ)
    (h : check_contact pleg plegRec plegNN coeffs expfacts nmax φ θ d = some v) :
    get_shape_radius pleg plegRec plegNN coeffs nmax θ φ = v := by
  cases nmax with
  | zero =>
      exfalso
      simp only [check_contact] at h
      by_cases hgt : d > expfacts 0 * (coeffs 0 * Real.sqrt (1 / (4 * π)))
      · rw [if_pos hgt] at h; cases h
      · rw [if_neg hgt] at h
        rw [ccLoop_zero] at h
        cases h
  | succ m =>
      simp only [check_contact] at h
      by_cases hgt : d > expfacts 0 * (coeffs 0 * Real.sqrt (1 / (4 * π)))
      · rw [if_pos hgt] at h; cases h
      · rw [if_neg hgt] at h
        have key := ccLoop_some_iff expfacts d
          (check_contact_step pleg plegRec plegNN coeffs φ (Real.cos θ))
          (check_contact_init coeffs) (m + 1) m 0 v (by omega)
        simp only [stepIter, Nat.zero_add] at key
        rw [key] at h
        obtain ⟨-, hv⟩ := h
        rw [get_shape_radius, hv]
        rfl

/-- Witness for C6 at the all-zero kernel and coefficients, n_max = 1. -/
theorem check_contact_radius_agree_witness :
    get_shape_radius (fun _ _ _ => 0) (fun _ _ _ _ _ => 0) (fun _ _ _ => 0)
      (fun _ => 0) 1 0 0 = 0 := by
  refine check_contact_radius_agree (fun _ _ _ => 0) (fun _ _ _ _ _ => 0) (fun _ _ _ => 0)
    (fun _ => 0) (fun _ => 1) 1 0 0 0 0 ?_
  norm_num [check_contact, ccLoop, check_contact_step, check_contact_init]

/-! ## Coefficient rotation, AtomVecSpherharm::doRotate (lines 1340-1536)

doRotate nudges beta by 1e-10 when cos(beta/2) or sin(beta/2) is exactly
zero (lines 1401-1410; every range-normalization block, lines 1355-1391, is
commented out in the source), seeds the Wigner-d table for degrees 0 and 1
from the closed-form factorial expression (lines 1433-1450), fills the
remaining degrees by the three-branch recursion in lines 1461-1495, and
assembles the rotated complex coefficients as the mp-sum of lines
1502-1522; the final loop (lines 1524-1532) stores the real and imaginary
parts of entry (n, m) at the usual coefficient location loc(n, m).  The
embedding returns the assembled complex table indexed by degree and order.
Out-of-range Wigner entries are zero, mirroring the zero-initialized
dterm rows whose unwritten tails the recursion reads at the order
boundaries. -/

/-- Euler-angle error named by the specification for the rotation routine. -/
inductive RotErr where
  | RotationDegenerate
deriving DecidableEq

/-- Modelled from the spec: the factorial helper called by doRotate lives in
the math_spherharm helper, which is not under src/; section 4.7 of the
specification describes the degree 0 and 1 seeds as the closed-form
factorial expression, so the helper is the usual factorial on non-negative
integer arguments, returned as a double. -/
def factorial (k : ℤ) : ℝ := (Nat.factorial k.toNat : ℝ)

/-- The closed-form Wigner-d seed of lines 1436-1447, used for degrees 0
and 1: the k-sum of signed factorial quotients times powers of
cos(beta/2) and sin(beta/2), scaled by the square-root factor realnum. -/
noncomputable def wseed (cb sb : ℝ) (n : ℕ) (mp m : ℤ) : ℝ :=
  let realnum := Real.sqrt (factorial ((n : ℤ) + mp) * factorial ((n : ℤ) - mp)
    / factorial ((n : ℤ) + m) / factorial ((n : ℤ) - m))
  let klow := max 0 (m - mp)
  let khigh := min ((n : ℤ) - mp) ((n : ℤ) + m)
  (Finset.Icc klow khigh).sum (fun k =>
    (-1 : ℝ) ^ (k + mp - m).toNat
      * (factorial ((n : ℤ) + m) / factorial k / factorial ((n : ℤ) + m - k))
      * (factorial ((n : ℤ) - m) / factorial ((n : ℤ) - mp - k) / factorial (mp + k - m))
      * cb ^ (2 * (n : ℤ) + m - mp - 2 * k).toNat
      * sb ^ (2 * k + mp - m).toNat) * realnum

/-- The Wigner-d table dterm of doRotate: degrees 0 and 1 seeded by the
closed form, higher degrees by the Edmonds recursion with the interior,
mp = -n and mp = n branches of lines 1468-1492. -/
noncomputable def dterm (cb sb : ℝ) : ℕ → ℤ → ℤ → ℝ
  | 0, mp, m => if mp.natAbs ≤ 0 ∧ m.natAbs ≤ 0 then wseed cb sb 0 mp m else 0
  | 1, mp, m => if mp.natAbs ≤ 1 ∧ m.natAbs ≤ 1 then wseed cb sb 1 mp m else 0
  | (nn + 2), mp, m =>
      if mp.natAbs ≤ nn + 2 ∧ m.natAbs ≤ nn + 2 then
        let n : ℤ := (nn : ℤ) + 2
        let rn : ℝ := (nn : ℝ) + 2
        let rm : ℝ := (m : ℝ)
        let rmp : ℝ := (mp : ℝ)
        let ss := sb * sb
        let cc := cb * cb
        let sc := sb * cb
        let cms := cb * cb - sb * sb
        if -n < mp ∧ mp < n then
          cms * Real.sqrt ((rn + rm) * (rn - rm) / (rn + rmp) / (rn - rmp))
              * dterm cb sb (nn + 1) mp m
            + sc * Real.sqrt ((rn + rm) * (rn + rm - 1) / (rn + rmp) / (rn - rmp))
              * dterm cb sb (nn + 1) mp (m - 1)
            + (-(sc * Real.sqrt ((rn - rm) * (rn - rm - 1) / (rn + rmp) / (rn - rmp))))
              * dterm cb sb (nn + 1) mp (m + 1)
        else if mp = -n then
          2 * sc * Real.sqrt ((rn + rm) * (rn - rm) / (rn - rmp) / (rn - rmp - 1))
              * dterm cb sb (nn + 1) (mp + 1) m
            + ss * Real.sqrt ((rn + rm) * (rn + rm - 1) / (rn - rmp) / (rn - rmp - 1))
              * dterm cb sb (nn + 1) (mp + 1) (m - 1)
            + cc * Real.sqrt ((rn - rm) * (rn - rm - 1) / (rn - rmp) / (rn - rmp - 1))
              * dterm cb sb (nn + 1) (mp + 1) (m + 1)
        else
          (-(2 * sc * Real.sqrt ((rn + rm) * (rn - rm) / (rn + rmp) / (rn + rmp - 1))))
              * dterm cb sb (nn + 1) (mp - 1) m
            + cc * Real.sqrt ((rn + rm) * (rn + rm - 1) / (rn + rmp) / (rn + rmp - 1))
              * dterm cb sb (nn + 1) (mp - 1) (m - 1)
            + ss * Real.sqrt ((rn - rm) * (rn - rm - 1) / (rn + rmp) / (rn + rmp - 1))
              * dterm cb sb (nn + 1) (mp - 1) (m + 1)
      else 0

/-- The input coefficient a_{n, mp} read at lines 1510-1512: the stored
(Re, Im) pair at mloc = (n+1)(n+2) - 2 - 2|mp|, conjugated and signed for
negative orders. -/
noncomputable def anmOf (coeffin : ℕ → ℝ) (n : ℕ) (mp : ℤ) : ℂ :=
  let mloc := (n + 1) * (n + 2) - 2 - 2 * mp.natAbs
  let a : ℂ := ⟨coeffin mloc, coeffin (mloc + 1)⟩
  if mp < 0 then ((((-1 : ℝ) ^ mp.natAbs : ℝ)) : ℂ) * (starRingEnd ℂ) a else a

/-- The assembled rotated coefficient aa[n][m+n] of lines 1502-1522: the
sum over mp of exp(i mp gamma) * dterm * exp(i mp alpha) * a_{n, mp}. -/
noncomputable def aaOut (coeffin : ℕ → ℝ) (cb sb alpha gamma : ℝ) (n : ℕ) (m : ℤ) : ℂ :=
  (Finset.Icc (-(n : ℤ)) (n : ℤ)).sum fun mp =>
    Complex.exp (⟨0, (mp : ℝ) * gamma⟩ : ℂ)
      * (((dterm cb sb n mp m : ℝ) : ℂ)
        * (Complex.exp (⟨0, (mp : ℝ) * alpha⟩ : ℂ) * anmOf coeffin n mp))

/-- AtomVecSpherharm::doRotate (lines 1340-1536).  The result carries the
error type the specification assigns to the routine; the source itself
contains no validation of beta (its normalization blocks are commented
out), only the two 1e-10 nudges of lines 1401-1410, so every call
produces the rotated coefficient table. -/
noncomputable def doRotate (coeffin : ℕ → ℝ) (alpha beta gamma : ℝ) :
    Except RotErr (ℕ → ℤ → ℂ) :=
  let cb0 := Real.cos (beta / 2)
  let sb0 := Real.sin (beta / 2)
  let beta1 := if cb0 = 0 then beta + 1e-10 else beta
  let cb := if cb0 = 0 then Real.cos (beta1 / 2) else cb0
  let beta2 := if sb0 = 0 then beta1 + 1e-10 else beta1
  let sb := if sb0 = 0 then Real.sin (beta2 / 2) else sb0
  Except.ok (fun n m => aaOut coeffin cb sb alpha gamma n m)

/-- C7 (amended): doRotate performs no range validation of the Euler angle
beta: for every beta, including every value outside [0, pi], it produces
rotated output coefficients (only nudging beta by 1e-10 when cos(beta/2)
or sin(beta/2) is exactly zero) and never reports RotationDegenerate. -/
theorem doRotate_total (coeffin : ℕ → ℝ) (alpha beta gamma : ℝ) :
    doRotate coeffin alpha beta gamma ≠ Except.error RotErr.RotationDegenerate :=
  fun h => Except.noConfusion h

/-- Counterexample to C7 as stated: beta = -1 lies outside [0, pi], yet
doRotate produces output coefficients instead of reporting the
RotationDegenerate error. -/
theorem doRotate_beta_unchecked :
    ¬ ((0:ℝ) ≤ -1) ∧
    doRotate (fun _ => 0) 0 (-1) 0 ≠ Except.error RotErr.RotationDegenerate :=
  ⟨by norm_num, fun h => Except.noConfusion h⟩

end Spherharm
